import Mathlib

/-!
# contours-gen: extent scan, grid sizing and geotransform of `main`

Embedding of the numeric steps of `src/main.go` (lines 92-123 and 163), in two
readings of the same lines.

* The exact reading evaluates the lines over the rationals and the integers.
  It is used for the statements posed in exact arithmetic and for inputs on
  which every float64 operation of the lines is exact.
* The float64 reading evaluates the lines over `F64`: NaN, the two infinities
  and the finite values, with IEEE 754 comparisons, round-to-nearest-even
  arithmetic and the 64-bit conversion `int(v)`.

The interpolation itself is the library call `gdal.GridCreate` and is not part
of the embedding.
-/

namespace ContoursGen

/-! ## The exact reading -/

/-- The constant `math.MaxFloat64`, the largest finite float64:
`(2^53 - 1) * 2^971`. -/
def MaxFloat64 : ℚ := (2 ^ 53 - 1) * 2 ^ 971

/-- The four variables `xMin, xMax, yMin, yMax` of `main`. -/
structure Extent where
  xMin : ℚ
  xMax : ℚ
  yMin : ℚ
  yMax : ℚ
deriving DecidableEq

/-- Line 93: the initial values of the four extent variables. -/
def extentInit : Extent :=
  { xMin := MaxFloat64, xMax := -MaxFloat64, yMin := MaxFloat64, yMax := -MaxFloat64 }

/-- Lines 95-106: the body of the scan loop for one index `i`, with `xi = x[i]`
and `yi = y[i]`. -/
def extentStep (e : Extent) (xi yi : ℚ) : Extent :=
  { xMin := if xi < e.xMin then xi else e.xMin
    xMax := if xi > e.xMax then xi else e.xMax
    yMin := if yi < e.yMin then yi else e.yMin
    yMax := if yi > e.yMax then yi else e.yMax }

/-- Lines 94-107: `for i := range x`, started at index `i` with the remaining
elements of `x` and `y`.  The loop runs over the indices of `x`; reading `y[i]`
past the end of `y` is an index-out-of-range panic (`none`). -/
def extentLoop : List ℚ → List ℚ → Extent → Option Extent
  | [], _, e => some e
  | _ :: _, [], _ => none
  | xi :: xs, yi :: ys, e => extentLoop xs ys (extentStep e xi yi)

/-- Lines 92-107: the extent scan of `main` over the coordinate slices. -/
def extentScan (x y : List ℚ) : Option Extent :=
  extentLoop x y extentInit

/-- Go's conversion `int(v)` of a float: truncation toward zero. -/
def goInt (v : ℚ) : ℤ :=
  if 0 ≤ v then ⌊v⌋ else ⌈v⌉

/-- Float division `a / b` in the exact reading.  For `b = 0` the float64
quotient is NaN or an infinity and the program goes on with it; that value is
no rational number, so the exact reading has no value there (`none`). -/
def floatDiv (a b : ℚ) : Option ℚ :=
  if b = 0 then none else some (a / b)

/-- Lines 113-118: `xSizeFloat`, `ySizeFloat` and the rounded `xSize`, `ySize`,
with the resolution as a parameter. -/
def gridSizes (e : Extent) (res : ℚ) : Option (ℤ × ℤ) :=
  match floatDiv (e.xMax - e.xMin) res, floatDiv (e.yMax - e.yMin) res with
  | some qx, some qy =>
    let xSizeFloat := |qx|
    let ySizeFloat := |qy|
    some (goInt (xSizeFloat + 1 / 2), goInt (ySizeFloat + 1 / 2))
  | _, _ => none

/-- Line 121: `pixelSize := math.Abs((xMax - xMin) / float64(xSize))`. -/
def pixelSize (e : Extent) (xSize : ℤ) : Option ℚ :=
  (floatDiv (e.xMax - e.xMin) (xSize : ℚ)).map fun q => |q|

/-- Line 163: the array handed to `dataset.SetGeoTransform`. -/
def geoTransform (e : Extent) (pixelSize : ℚ) : ℚ × ℚ × ℚ × ℚ × ℚ × ℚ :=
  (e.xMin, pixelSize, 0, e.yMax, 0, -pixelSize)

/-- The values computed by the pure steps of `main`. -/
structure Output where
  extent : Extent
  xSize : ℤ
  ySize : ℤ
  nX : ℕ
  nY : ℕ
  pixelSize : ℚ
  geoTransform : ℚ × ℚ × ℚ × ℚ × ℚ × ℚ
deriving DecidableEq

/-- Lines 92-123 and 163 in sequence, in the exact reading: extent scan, grid
sizing, pixel size, the `uint` sizes passed to the gridder, and the
geotransform.  It has a value where every quotient is a rational number and the
sizes are not negative. -/
def pureSteps (x y : List ℚ) (res : ℚ) : Option Output :=
  match extentScan x y with
  | none => none
  | some e =>
    match gridSizes e res with
    | none => none
    | some (xSize, ySize) =>
      match pixelSize e xSize with
      | none => none
      | some p =>
        some { extent := e, xSize := xSize, ySize := ySize
               nX := xSize.toNat, nY := ySize.toNat
               pixelSize := p, geoTransform := geoTransform e p }

/-! ## The float64 reading -/

/-- A float64 value: NaN, `+Inf`, `-Inf`, or a finite number given by its
rational value, which lies within `±math.MaxFloat64`.  Every float64 is one of
these values.  The sign of a zero is not represented: the comparisons of the
scan do not see it and every quotient of `main` goes through `math.Abs`. -/
inductive F64 where
  | nan
  | posInf
  | negInf
  | fin (q : ℚ) (h : |q| ≤ MaxFloat64)
deriving DecidableEq

/-- The float64 comparison `a < b`: false whenever an operand is NaN. -/
def F64.lt : F64 → F64 → Prop
  | .fin a _, .fin b _ => a < b
  | .negInf, .fin _ _ => True
  | .negInf, .posInf => True
  | .fin _ _, .posInf => True
  | _, _ => False

instance (a b : F64) : Decidable (F64.lt a b) := by
  unfold F64.lt; split <;> infer_instance

/-- The float64 comparison `a > b`. -/
def F64.gt (a b : F64) : Prop := F64.lt b a

instance (a b : F64) : Decidable (F64.gt a b) := by
  unfold F64.gt; infer_instance

/-- The float64 comparison `a <= b`: false whenever an operand is NaN. -/
def F64.le : F64 → F64 → Prop
  | .fin a _, .fin b _ => a ≤ b
  | .negInf, .fin _ _ => True
  | .negInf, .posInf => True
  | .negInf, .negInf => True
  | .fin _ _, .posInf => True
  | .posInf, .posInf => True
  | _, _ => False

instance (a b : F64) : Decidable (F64.le a b) := by
  unfold F64.le; split <;> infer_instance

/-- Unary minus. -/
def F64.neg : F64 → F64
  | .nan => .nan
  | .posInf => .negInf
  | .negInf => .posInf
  | .fin q h => .fin (-q) (by rwa [abs_neg])

/-- The function `math.Abs`. -/
def F64.fabs : F64 → F64
  | .nan => .nan
  | .posInf => .posInf
  | .negInf => .posInf
  | .fin q h => .fin |q| (by rwa [abs_abs])

/-- The float64 of a rational that needs no rounding of its digits: the value
itself when it is within the finite range, otherwise the infinity of its
sign. -/
def F64.ofRat (q : ℚ) : F64 :=
  if h : |q| ≤ MaxFloat64 then .fin q h else if 0 < q then .posInf else .negInf

/-- The constant `math.MaxFloat64` as a float64. -/
def F64.maxFloat : F64 :=
  .fin MaxFloat64 (le_of_eq (abs_of_nonneg (by norm_num [MaxFloat64])))

/-- The float64 zero. -/
def F64.zero : F64 := .fin 0 (by norm_num [MaxFloat64])

/-- The float64 one. -/
def F64.one : F64 := .fin 1 (by norm_num [MaxFloat64])

/-- The constant `0.5`. -/
def F64.half : F64 := .fin (1 / 2) (by norm_num [MaxFloat64, abs_of_nonneg])

/-- Round a rational to the nearest integer, ties to the even one. -/
def roundHalfEven (r : ℚ) : ℤ :=
  if r - ⌊r⌋ < 1 / 2 then ⌊r⌋
  else if 1 / 2 < r - ⌊r⌋ then ⌊r⌋ + 1
  else if ⌊r⌋ % 2 = 0 then ⌊r⌋ else ⌊r⌋ + 1

/-- The exponent of the unit in the last place for a magnitude `a > 0`: the
binary exponent of `a`, not below the smallest normal exponent `-1022`, minus
the 52 fraction bits. -/
def ulpExp (a : ℚ) : ℤ := max (Int.log 2 a) (-1022) - 52

/-- Round a magnitude `a ≥ 0` to 53 significant bits, ties to even. -/
def roundMagnitude (a : ℚ) : ℚ :=
  (roundHalfEven (a / 2 ^ ulpExp a) : ℚ) * 2 ^ ulpExp a

/-- Round a rational to 53 significant bits, ties to even, symmetric in the
sign. -/
def roundValue (q : ℚ) : ℚ :=
  if q < 0 then -roundMagnitude (-q) else roundMagnitude q

/-- IEEE 754 round-to-nearest-even of an exact result to float64; a rounded
magnitude above `math.MaxFloat64` overflows to the infinity of its sign. -/
def roundF64 (q : ℚ) : F64 := F64.ofRat (roundValue q)

/-- Float64 subtraction `a - b`. -/
def F64.sub : F64 → F64 → F64
  | .nan, _ => .nan
  | _, .nan => .nan
  | .posInf, .posInf => .nan
  | .negInf, .negInf => .nan
  | .posInf, _ => .posInf
  | .negInf, _ => .negInf
  | .fin _ _, .posInf => .negInf
  | .fin _ _, .negInf => .posInf
  | .fin a _, .fin b _ => roundF64 (a - b)

/-- Float64 addition `a + b`. -/
def F64.add : F64 → F64 → F64
  | .nan, _ => .nan
  | _, .nan => .nan
  | .posInf, .negInf => .nan
  | .negInf, .posInf => .nan
  | .posInf, _ => .posInf
  | .negInf, _ => .negInf
  | .fin _ _, .posInf => .posInf
  | .fin _ _, .negInf => .negInf
  | .fin a _, .fin b _ => roundF64 (a + b)

/-- Float64 division `a / b`.  It never fails: a zero divisor gives NaN (for a
zero or NaN dividend) or an infinity.  A zero divisor counts as `+0`. -/
def F64.div : F64 → F64 → F64
  | .nan, _ => .nan
  | _, .nan => .nan
  | .posInf, .posInf => .nan
  | .posInf, .negInf => .nan
  | .negInf, .posInf => .nan
  | .negInf, .negInf => .nan
  | .posInf, .fin b _ => if 0 ≤ b then .posInf else .negInf
  | .negInf, .fin b _ => if 0 ≤ b then .negInf else .posInf
  | .fin _ _, .posInf => F64.zero
  | .fin _ _, .negInf => F64.zero
  | .fin a _, .fin b _ =>
    if b = 0 then (if a = 0 then .nan else if 0 < a then .posInf else .negInf)
    else roundF64 (a / b)

/-- The value of `int(v)` for a float64 that is NaN, infinite or outside the
range of int64.  Go leaves it implementation-dependent; this is the value on
amd64, the smallest int64. -/
def intIndefinite : ℤ := -2 ^ 63

/-- Go's conversion `int(v)` of a float64 to the 64-bit `int`: truncation
toward zero when the result is an int64, `intIndefinite` otherwise. -/
def goIntF : F64 → ℤ
  | .fin q _ => if -2 ^ 63 ≤ goInt q ∧ goInt q < 2 ^ 63 then goInt q else intIndefinite
  | _ => intIndefinite

/-- Line 110: the resolution constant of `main`, the float64 nearest to the
literal `2.6516228627319196e-05`, which is `7826209332610047 / 2^68`. -/
def resolution : F64 :=
  .fin (7826209332610047 / 2 ^ 68) (by norm_num [MaxFloat64, abs_of_nonneg])

/-- The four float64 variables `xMin, xMax, yMin, yMax` of `main`. -/
structure ExtentF where
  xMin : F64
  xMax : F64
  yMin : F64
  yMax : F64
deriving DecidableEq

/-- Line 93 in float64: `math.MaxFloat64, -math.MaxFloat64, math.MaxFloat64,
-math.MaxFloat64`. -/
def extentInitF : ExtentF :=
  { xMin := F64.maxFloat, xMax := F64.neg F64.maxFloat
    yMin := F64.maxFloat, yMax := F64.neg F64.maxFloat }

/-- Lines 95-106 in float64: the body of the scan loop for one index `i`, with
`xi = x[i]` and `yi = y[i]`. -/
def extentStepF (e : ExtentF) (xi yi : F64) : ExtentF :=
  { xMin := if F64.lt xi e.xMin then xi else e.xMin
    xMax := if F64.gt xi e.xMax then xi else e.xMax
    yMin := if F64.lt yi e.yMin then yi else e.yMin
    yMax := if F64.gt yi e.yMax then yi else e.yMax }

/-- Lines 94-107 in float64: `for i := range x` over the remaining elements;
reading `y[i]` past the end of `y` is an index-out-of-range panic (`none`). -/
def extentLoopF : List F64 → List F64 → ExtentF → Option ExtentF
  | [], _, e => some e
  | _ :: _, [], _ => none
  | xi :: xs, yi :: ys, e => extentLoopF xs ys (extentStepF e xi yi)

/-- Lines 92-107 in float64: the extent scan of `main`. -/
def extentScanF (x y : List F64) : Option ExtentF :=
  extentLoopF x y extentInitF

/-- Lines 113-114 in float64: `math.Abs((hi - lo) / resolution)`. -/
def sizeFloat (lo hi res : F64) : F64 :=
  F64.fabs (F64.div (F64.sub hi lo) res)

/-- Lines 113-118 in float64: `xSizeFloat`, `ySizeFloat` and the sizes
`int(xSizeFloat + 0.5)`, `int(ySizeFloat + 0.5)`, with the resolution as a
parameter.  No step of these lines can fail. -/
def gridSizesF (e : ExtentF) (res : F64) : ℤ × ℤ :=
  let xSizeFloat := sizeFloat e.xMin e.xMax res
  let ySizeFloat := sizeFloat e.yMin e.yMax res
  (goIntF (F64.add xSizeFloat F64.half), goIntF (F64.add ySizeFloat F64.half))

/-- The running minimum of the scan: `if v < m { m = v }` over a list. -/
def scanMin (m : F64) (l : List F64) : F64 :=
  l.foldl (fun m v => if F64.lt v m then v else m) m

/-- The running maximum of the scan: `if v > m { m = v }` over a list. -/
def scanMax (m : F64) (l : List F64) : F64 :=
  l.foldl (fun m v => if F64.gt v m then v else m) m

/-! ## Float64 comparisons -/

theorem flt_not_nan {a b : F64} (h : F64.lt a b) : a ≠ .nan ∧ b ≠ .nan := by
  cases a <;> cases b <;> simp_all [F64.lt]

theorem fle_not_nan {a b : F64} (h : F64.le a b) : a ≠ .nan ∧ b ≠ .nan := by
  cases a <;> cases b <;> simp_all [F64.le]

theorem fle_refl {a : F64} (h : a ≠ .nan) : F64.le a a := by
  cases a <;> simp_all [F64.le]

theorem fle_of_not_lt {a b : F64} (ha : a ≠ .nan) (hb : b ≠ .nan)
    (h : ¬ F64.lt a b) : F64.le b a := by
  cases a <;> cases b <;> simp_all [F64.le, F64.lt]

theorem fle_trans {a b c : F64} (h1 : F64.le a b) (h2 : F64.le b c) : F64.le a c := by
  cases a <;> cases b <;> cases c <;> simp_all [F64.le]
  exact le_trans h1 h2

theorem fle_antisymm {a b : F64} (h1 : F64.le a b) (h2 : F64.le b a) : a = b := by
  cases a <;> cases b <;> simp_all [F64.le]
  exact le_antisymm h1 h2

theorem fle_maxFloat {a : F64} (h1 : a ≠ .nan) (h2 : a ≠ .posInf) :
    F64.le a F64.maxFloat := by
  cases a with
  | nan => exact absurd rfl h1
  | posInf => exact absurd rfl h2
  | negInf => simp [F64.le, F64.maxFloat]
  | fin q h => simpa [F64.le, F64.maxFloat] using (abs_le.mp h).2

theorem neg_maxFloat_fle {a : F64} (h1 : a ≠ .nan) (h2 : a ≠ .negInf) :
    F64.le (F64.neg F64.maxFloat) a := by
  cases a with
  | nan => exact absurd rfl h1
  | negInf => exact absurd rfl h2
  | posInf => simp [F64.le, F64.maxFloat, F64.neg]
  | fin q h => simpa [F64.le, F64.maxFloat, F64.neg] using (abs_le.mp h).1

theorem fle_of_lt {a b : F64} (h : F64.lt a b) : F64.le a b := by
  cases a <;> cases b <;> simp_all [F64.le, F64.lt]
  exact le_of_lt h

/-! ## The scan loop as two running minima and two running maxima -/

theorem extentLoopF_eq_scans (x : List F64) :
    ∀ (y : List F64) (e : ExtentF), x.length = y.length →
      extentLoopF x y e = some
        { xMin := scanMin e.xMin x, xMax := scanMax e.xMax x
          yMin := scanMin e.yMin y, yMax := scanMax e.yMax y } := by
  induction x with
  | nil =>
    intro y e h
    cases y with
    | nil => rfl
    | cons b ys => simp at h
  | cons a xs ih =>
    intro y e h
    cases y with
    | nil => simp at h
    | cons b ys =>
      have h1 : xs.length = ys.length := by simpa using h
      simp only [extentLoopF]
      rw [ih ys (extentStepF e a b) h1]
      rfl

theorem extentScanF_eq_scans (x y : List F64) (hlen : x.length = y.length) :
    extentScanF x y = some
      { xMin := scanMin F64.maxFloat x, xMax := scanMax (F64.neg F64.maxFloat) x
        yMin := scanMin F64.maxFloat y, yMax := scanMax (F64.neg F64.maxFloat) y } := by
  unfold extentScanF
  rw [extentLoopF_eq_scans x y extentInitF hlen]
  rfl

/-- The running minimum started at a non-NaN value: it is not NaN, it is not
above the start value, it is not above any non-NaN element, and it is the start
value or an element. -/
theorem scanMin_spec (l : List F64) : ∀ m : F64, m ≠ .nan →
    scanMin m l ≠ .nan ∧ F64.le (scanMin m l) m ∧
      (∀ v ∈ l, v ≠ .nan → F64.le (scanMin m l) v) ∧
      (scanMin m l = m ∨ scanMin m l ∈ l) := by
  induction l with
  | nil =>
    intro m hm
    exact ⟨hm, fle_refl hm, fun v hv => by simp at hv, Or.inl rfl⟩
  | cons a t ih =>
    intro m hm
    have hstep : scanMin m (a :: t) = scanMin (if F64.lt a m then a else m) t := rfl
    rw [hstep]
    by_cases hlt : F64.lt a m
    · rw [if_pos hlt]
      have ha : a ≠ .nan := (flt_not_nan hlt).1
      obtain ⟨h1, h2, h3, h4⟩ := ih a ha
      have ham : F64.le a m := fle_of_lt hlt
      refine ⟨h1, fle_trans h2 ham, ?_, ?_⟩
      · intro v hv hvn
        rcases List.mem_cons.mp hv with h | h
        · rw [h]; exact h2
        · exact h3 v h hvn
      · rcases h4 with h | h
        · right; rw [h]; exact List.mem_cons_self a t
        · right; exact List.mem_cons_of_mem a h
    · rw [if_neg hlt]
      obtain ⟨h1, h2, h3, h4⟩ := ih m hm
      refine ⟨h1, h2, ?_, ?_⟩
      · intro v hv hvn
        rcases List.mem_cons.mp hv with h | h
        · rw [h]; rw [h] at hvn
          exact fle_trans h2 (fle_of_not_lt hvn hm hlt)
        · exact h3 v h hvn
      · rcases h4 with h | h
        · left; exact h
        · right; exact List.mem_cons_of_mem a h

/-- The running maximum started at a non-NaN value: it is not NaN, it is not
below the start value, it is not below any non-NaN element, and it is the start
value or an element. -/
theorem scanMax_spec (l : List F64) : ∀ m : F64, m ≠ .nan →
    scanMax m l ≠ .nan ∧ F64.le m (scanMax m l) ∧
      (∀ v ∈ l, v ≠ .nan → F64.le v (scanMax m l)) ∧
      (scanMax m l = m ∨ scanMax m l ∈ l) := by
  induction l with
  | nil =>
    intro m hm
    exact ⟨hm, fle_refl hm, fun v hv => by simp at hv, Or.inl rfl⟩
  | cons a t ih =>
    intro m hm
    have hstep : scanMax m (a :: t) = scanMax (if F64.gt a m then a else m) t := rfl
    rw [hstep]
    by_cases hgt : F64.gt a m
    · rw [if_pos hgt]
      have hlt : F64.lt m a := hgt
      have ha : a ≠ .nan := (flt_not_nan hlt).2
      obtain ⟨h1, h2, h3, h4⟩ := ih a ha
      have hma : F64.le m a := fle_of_lt hlt
      refine ⟨h1, fle_trans hma h2, ?_, ?_⟩
      · intro v hv hvn
        rcases List.mem_cons.mp hv with h | h
        · rw [h]; exact h2
        · exact h3 v h hvn
      · rcases h4 with h | h
        · right; rw [h]; exact List.mem_cons_self a t
        · right; exact List.mem_cons_of_mem a h
    · rw [if_neg hgt]
      have hnlt : ¬ F64.lt m a := hgt
      obtain ⟨h1, h2, h3, h4⟩ := ih m hm
      refine ⟨h1, h2, ?_, ?_⟩
      · intro v hv hvn
        rcases List.mem_cons.mp hv with h | h
        · rw [h]; rw [h] at hvn
          exact fle_trans (fle_of_not_lt hm hvn hnlt) h2
        · exact h3 v h hvn
      · rcases h4 with h | h
        · left; exact h
        · right; exact List.mem_cons_of_mem a h

theorem maxFloat_not_nan : F64.maxFloat ≠ .nan := by
  simp [F64.maxFloat]

theorem neg_maxFloat_not_nan : F64.neg F64.maxFloat ≠ .nan := by
  simp [F64.maxFloat, F64.neg]

/-- The running minimum is an element as soon as one element is not above the
start value. -/
theorem scanMin_mem (l : List F64) (m : F64) (hm : m ≠ .nan)
    (h : ∃ v ∈ l, F64.le v m) : scanMin m l ∈ l := by
  obtain ⟨_, h2, h3, h4⟩ := scanMin_spec l m hm
  rcases h4 with h4 | h4
  · obtain ⟨v, hv, hvm⟩ := h
    have h5 : F64.le (scanMin m l) v := h3 v hv (fle_not_nan hvm).1
    have h6 : scanMin m l = v := fle_antisymm h5 (by rw [h4]; exact hvm)
    rw [h6]; exact hv
  · exact h4

/-- The running maximum is an element as soon as one element is not below the
start value. -/
theorem scanMax_mem (l : List F64) (m : F64) (hm : m ≠ .nan)
    (h : ∃ v ∈ l, F64.le m v) : scanMax m l ∈ l := by
  obtain ⟨_, h2, h3, h4⟩ := scanMax_spec l m hm
  rcases h4 with h4 | h4
  · obtain ⟨v, hv, hvm⟩ := h
    have h5 : F64.le v (scanMax m l) := h3 v hv (fle_not_nan hvm).2
    have h6 : scanMax m l = v := fle_antisymm (by rw [h4]; exact hvm) h5
    rw [h6]; exact hv
  · exact h4

/-- The running minimum depends on the elements only, not on their order. -/
theorem scanMin_congr (l l2 : List F64) (m : F64) (hm : m ≠ .nan)
    (hp : ∀ v, v ∈ l ↔ v ∈ l2) : scanMin m l2 = scanMin m l := by
  obtain ⟨a1, a2, a3, a4⟩ := scanMin_spec l m hm
  obtain ⟨b1, b2, b3, b4⟩ := scanMin_spec l2 m hm
  refine fle_antisymm ?_ ?_
  · rcases a4 with h | h
    · rw [h]; exact b2
    · exact b3 _ ((hp _).mp h) a1
  · rcases b4 with h | h
    · rw [h]; exact a2
    · exact a3 _ ((hp _).mpr h) b1

/-- The running maximum depends on the elements only, not on their order. -/
theorem scanMax_congr (l l2 : List F64) (m : F64) (hm : m ≠ .nan)
    (hp : ∀ v, v ∈ l ↔ v ∈ l2) : scanMax m l2 = scanMax m l := by
  obtain ⟨a1, a2, a3, a4⟩ := scanMax_spec l m hm
  obtain ⟨b1, b2, b3, b4⟩ := scanMax_spec l2 m hm
  refine fle_antisymm ?_ ?_
  · rcases b4 with h | h
    · rw [h]; exact a2
    · exact a3 _ ((hp _).mpr h) b1
  · rcases a4 with h | h
    · rw [h]; exact b2
    · exact b3 _ ((hp _).mp h) a1

/-- Reordering the samples (the pairs `(x[i], y[i])`) keeps the elements of each
coordinate list. -/
theorem zip_perm_mem (x y x2 y2 : List F64) (hlen : x.length = y.length)
    (hlen2 : x2.length = y2.length) (hp : (x.zip y).Perm (x2.zip y2)) :
    (∀ v, v ∈ x ↔ v ∈ x2) ∧ (∀ v, v ∈ y ↔ v ∈ y2) := by
  have hx : x.Perm x2 := by
    have h := hp.map Prod.fst
    rwa [List.map_fst_zip _ _ hlen.le, List.map_fst_zip _ _ hlen2.le] at h
  have hy : y.Perm y2 := by
    have h := hp.map Prod.snd
    rwa [List.map_snd_zip _ _ hlen.ge, List.map_snd_zip _ _ hlen2.ge] at h
  exact ⟨fun v => hx.mem_iff, fun v => hy.mem_iff⟩

/-! ## Claims about the extent scan -/

/-- C1, as the code behaves: for the single sample with NaN coordinates every
comparison of the scan is false, the four variables keep their initial values,
so `xMin ≤ xMax` fails and `xMin ≤ x[0]` fails. -/
theorem extentScanF_nan_sample :
    extentScanF [F64.nan] [F64.nan] = some extentInitF ∧
      ¬ F64.le extentInitF.xMin extentInitF.xMax ∧
      ¬ F64.le extentInitF.xMin F64.nan := by
  refine ⟨rfl, ?_, ?_⟩
  · norm_num [extentInitF, F64.le, F64.maxFloat, F64.neg, MaxFloat64]
  · simp [extentInitF, F64.le, F64.maxFloat]

/-- C1 amended: for coordinate lists of equal length the extent scan returns an
extent with `xMin ≤ x[i] ≤ xMax` for every index `i` whose `x[i]` is not NaN
and `yMin ≤ y[i] ≤ yMax` for every index `i` whose `y[i]` is not NaN; and
`xMin ≤ xMax` when some `x[i]` is not NaN, `yMin ≤ yMax` when some `y[i]` is
not NaN. -/
theorem extentScanF_covers (x y : List F64) (hlen : x.length = y.length) :
    ∃ e, extentScanF x y = some e ∧
      (∀ (i : ℕ) (hx : i < x.length) (hy : i < y.length),
        (x[i] ≠ F64.nan → F64.le e.xMin x[i] ∧ F64.le x[i] e.xMax) ∧
        (y[i] ≠ F64.nan → F64.le e.yMin y[i] ∧ F64.le y[i] e.yMax)) ∧
      ((∃ v ∈ x, v ≠ F64.nan) → F64.le e.xMin e.xMax) ∧
      ((∃ v ∈ y, v ≠ F64.nan) → F64.le e.yMin e.yMax) := by
  obtain ⟨_, _, a3, _⟩ := scanMin_spec x F64.maxFloat maxFloat_not_nan
  obtain ⟨_, _, b3, _⟩ := scanMax_spec x (F64.neg F64.maxFloat) neg_maxFloat_not_nan
  obtain ⟨_, _, c3, _⟩ := scanMin_spec y F64.maxFloat maxFloat_not_nan
  obtain ⟨_, _, d3, _⟩ := scanMax_spec y (F64.neg F64.maxFloat) neg_maxFloat_not_nan
  refine ⟨_, extentScanF_eq_scans x y hlen, ?_, ?_, ?_⟩
  · intro i hx hy
    exact ⟨fun h => ⟨a3 _ (List.getElem_mem hx) h, b3 _ (List.getElem_mem hx) h⟩,
      fun h => ⟨c3 _ (List.getElem_mem hy) h, d3 _ (List.getElem_mem hy) h⟩⟩
  · rintro ⟨v, hv, hn⟩
    exact fle_trans (a3 v hv hn) (b3 v hv hn)
  · rintro ⟨v, hv, hn⟩
    exact fle_trans (c3 v hv hn) (d3 v hv hn)

/-- Witness of C1 amended on three samples, the first with a NaN x. -/
theorem extentScanF_covers_witness :
    [F64.nan, F64.ofRat 10, F64.zero].length = [F64.zero, F64.zero, F64.ofRat 10].length ∧
    (∃ v ∈ [F64.nan, F64.ofRat 10, F64.zero], v ≠ F64.nan) ∧
    (∃ v ∈ [F64.zero, F64.zero, F64.ofRat 10], v ≠ F64.nan) ∧
    ∃ e, extentScanF [F64.nan, F64.ofRat 10, F64.zero]
        [F64.zero, F64.zero, F64.ofRat 10] = some e ∧
      (∀ (i : ℕ) (_ : i < [F64.nan, F64.ofRat 10, F64.zero].length)
          (_ : i < [F64.zero, F64.zero, F64.ofRat 10].length),
        ([F64.nan, F64.ofRat 10, F64.zero][i] ≠ F64.nan →
          F64.le e.xMin [F64.nan, F64.ofRat 10, F64.zero][i] ∧
          F64.le [F64.nan, F64.ofRat 10, F64.zero][i] e.xMax) ∧
        ([F64.zero, F64.zero, F64.ofRat 10][i] ≠ F64.nan →
          F64.le e.yMin [F64.zero, F64.zero, F64.ofRat 10][i] ∧
          F64.le [F64.zero, F64.zero, F64.ofRat 10][i] e.yMax)) ∧
      ((∃ v ∈ [F64.nan, F64.ofRat 10, F64.zero], v ≠ F64.nan) → F64.le e.xMin e.xMax) ∧
      ((∃ v ∈ [F64.zero, F64.zero, F64.ofRat 10], v ≠ F64.nan) → F64.le e.yMin e.yMax) :=
  ⟨rfl, ⟨F64.zero, by simp, by simp [F64.zero]⟩, ⟨F64.zero, by simp, by simp [F64.zero]⟩,
    extentScanF_covers [F64.nan, F64.ofRat 10, F64.zero]
      [F64.zero, F64.zero, F64.ofRat 10] rfl⟩

/-- C2, as the code behaves: for the single sample with coordinates `+Inf` the
comparison `x[0] < xMin` is false, so `xMin` and `yMin` keep the initial value
`math.MaxFloat64`, which is the coordinate of no sample. -/
theorem extentScanF_inf_sample :
    extentScanF [F64.posInf] [F64.posInf] = some
      { xMin := F64.maxFloat, xMax := F64.posInf
        yMin := F64.maxFloat, yMax := F64.posInf } ∧
      F64.maxFloat ∉ [F64.posInf] := by
  refine ⟨?_, ?_⟩
  · simp [extentScanF, extentLoopF, extentStepF, extentInitF, F64.lt, F64.gt,
      F64.maxFloat, F64.neg]
  · simp [F64.maxFloat]

/-- C2 amended: for coordinate lists of equal length, `xMin` is the x of some
sample when some `x[i]` is neither NaN nor `+Inf`, `xMax` is the x of some
sample when some `x[i]` is neither NaN nor `-Inf`, and likewise `yMin` and
`yMax` for y (so all four are attained when every coordinate is finite); and
the scan of any reordering of the samples returns the same extent. -/
theorem extentScanF_attained (x y : List F64) (hlen : x.length = y.length) :
    ∃ e, extentScanF x y = some e ∧
      ((∃ v ∈ x, v ≠ F64.nan ∧ v ≠ F64.posInf) → e.xMin ∈ x) ∧
      ((∃ v ∈ x, v ≠ F64.nan ∧ v ≠ F64.negInf) → e.xMax ∈ x) ∧
      ((∃ v ∈ y, v ≠ F64.nan ∧ v ≠ F64.posInf) → e.yMin ∈ y) ∧
      ((∃ v ∈ y, v ≠ F64.nan ∧ v ≠ F64.negInf) → e.yMax ∈ y) ∧
      ∀ x2 y2 : List F64, x2.length = y2.length → (x.zip y).Perm (x2.zip y2) →
        extentScanF x2 y2 = some e := by
  refine ⟨_, extentScanF_eq_scans x y hlen, ?_, ?_, ?_, ?_, ?_⟩
  · rintro ⟨v, hv, h1, h2⟩
    exact scanMin_mem x _ maxFloat_not_nan ⟨v, hv, fle_maxFloat h1 h2⟩
  · rintro ⟨v, hv, h1, h2⟩
    exact scanMax_mem x _ neg_maxFloat_not_nan ⟨v, hv, neg_maxFloat_fle h1 h2⟩
  · rintro ⟨v, hv, h1, h2⟩
    exact scanMin_mem y _ maxFloat_not_nan ⟨v, hv, fle_maxFloat h1 h2⟩
  · rintro ⟨v, hv, h1, h2⟩
    exact scanMax_mem y _ neg_maxFloat_not_nan ⟨v, hv, neg_maxFloat_fle h1 h2⟩
  · intro x2 y2 hlen2 hp
    obtain ⟨mx, my⟩ := zip_perm_mem x y x2 y2 hlen hlen2 hp
    rw [extentScanF_eq_scans x2 y2 hlen2,
      scanMin_congr x x2 _ maxFloat_not_nan mx,
      scanMax_congr x x2 _ neg_maxFloat_not_nan mx,
      scanMin_congr y y2 _ maxFloat_not_nan my,
      scanMax_congr y y2 _ neg_maxFloat_not_nan my]

/-- Witness of C2 amended on the samples `(0,0)`, `(10,0)`, `(0,10)`. -/
theorem extentScanF_attained_witness :
    [F64.zero, F64.ofRat 10, F64.zero].length =
      [F64.zero, F64.zero, F64.ofRat 10].length ∧
    (∃ v ∈ [F64.zero, F64.ofRat 10, F64.zero],
      v ≠ F64.nan ∧ v ≠ F64.posInf ∧ v ≠ F64.negInf) ∧
    (∃ v ∈ [F64.zero, F64.zero, F64.ofRat 10],
      v ≠ F64.nan ∧ v ≠ F64.posInf ∧ v ≠ F64.negInf) ∧
    ∃ e, extentScanF [F64.zero, F64.ofRat 10, F64.zero]
        [F64.zero, F64.zero, F64.ofRat 10] = some e ∧
      ((∃ v ∈ [F64.zero, F64.ofRat 10, F64.zero], v ≠ F64.nan ∧ v ≠ F64.posInf) →
        e.xMin ∈ [F64.zero, F64.ofRat 10, F64.zero]) ∧
      ((∃ v ∈ [F64.zero, F64.ofRat 10, F64.zero], v ≠ F64.nan ∧ v ≠ F64.negInf) →
        e.xMax ∈ [F64.zero, F64.ofRat 10, F64.zero]) ∧
      ((∃ v ∈ [F64.zero, F64.zero, F64.ofRat 10], v ≠ F64.nan ∧ v ≠ F64.posInf) →
        e.yMin ∈ [F64.zero, F64.zero, F64.ofRat 10]) ∧
      ((∃ v ∈ [F64.zero, F64.zero, F64.ofRat 10], v ≠ F64.nan ∧ v ≠ F64.negInf) →
        e.yMax ∈ [F64.zero, F64.zero, F64.ofRat 10]) ∧
      ∀ x2 y2 : List F64, x2.length = y2.length →
        ([F64.zero, F64.ofRat 10, F64.zero].zip
          [F64.zero, F64.zero, F64.ofRat 10]).Perm (x2.zip y2) →
        extentScanF x2 y2 = some e :=
  ⟨rfl, ⟨F64.zero, by simp, by simp [F64.zero]⟩, ⟨F64.zero, by simp, by simp [F64.zero]⟩,
    extentScanF_attained [F64.zero, F64.ofRat 10, F64.zero]
      [F64.zero, F64.zero, F64.ofRat 10] rfl⟩

/-! ## Rounding to float64 -/

theorem roundHalfEven_intCast (n : ℤ) : roundHalfEven (n : ℚ) = n := by
  unfold roundHalfEven
  rw [Int.floor_intCast, sub_self, if_pos (by norm_num)]

theorem roundMagnitude_zero : roundMagnitude 0 = 0 := by
  unfold roundMagnitude
  rw [zero_div]
  have h : roundHalfEven 0 = 0 := by
    have := roundHalfEven_intCast 0
    simpa using this
  rw [h]
  simp

theorem roundValue_zero : roundValue 0 = 0 := by
  unfold roundValue
  rw [if_neg (lt_irrefl 0), roundMagnitude_zero]

theorem roundValue_neg (q : ℚ) : roundValue (-q) = -roundValue q := by
  unfold roundValue
  rcases lt_trichotomy q 0 with h | h | h
  · rw [if_neg (by linarith), if_pos h, neg_neg]
  · subst h
    simp [roundMagnitude_zero]
  · rw [if_pos (by linarith), if_neg (by linarith), neg_neg]

theorem ofRat_neg (v : ℚ) : F64.ofRat (-v) = F64.neg (F64.ofRat v) := by
  unfold F64.ofRat
  by_cases h : |v| ≤ MaxFloat64
  · have h2 : |-v| ≤ MaxFloat64 := by rwa [abs_neg]
    rw [dif_pos h, dif_pos h2]
    rfl
  · have h2 : ¬ |-v| ≤ MaxFloat64 := by rwa [abs_neg]
    have hv : v ≠ 0 := by
      intro h0
      apply h
      rw [h0, abs_zero]
      norm_num [MaxFloat64]
    rw [dif_neg h, dif_neg h2]
    rcases lt_or_gt_of_ne hv with h3 | h3
    · rw [if_pos (by linarith), if_neg (by linarith)]
      rfl
    · rw [if_neg (by linarith), if_pos h3]
      rfl

theorem roundF64_neg (q : ℚ) : roundF64 (-q) = F64.neg (roundF64 q) := by
  unfold roundF64
  rw [roundValue_neg, ofRat_neg]

theorem roundF64_zero : roundF64 0 = F64.zero := by
  unfold roundF64
  rw [roundValue_zero]
  unfold F64.ofRat F64.zero
  rw [dif_pos]

theorem ulpExp_eq (a : ℚ) (k : ℤ) (hk : -1022 ≤ k) (h1 : (2 : ℚ) ^ k ≤ a)
    (h2 : a < (2 : ℚ) ^ (k + 1)) : ulpExp a = k - 52 := by
  have ha : 0 < a := lt_of_lt_of_le (by positivity) h1
  have e1 : k ≤ Int.log 2 a :=
    (Int.zpow_le_iff_le_log (by norm_num) ha).mp (by exact_mod_cast h1)
  have e2 : Int.log 2 a < k + 1 :=
    (Int.lt_zpow_iff_log_lt (by norm_num) ha).mp (by exact_mod_cast h2)
  unfold ulpExp
  rw [max_eq_left (by omega)]
  omega

/-- Evaluation of the rounding of a positive normal value: with `2^k ≤ a <
2^(k+1)` the result is the nearest-even multiple of `2^(k-52)`. -/
theorem roundF64_eval (a : ℚ) (k n : ℤ) (r : ℚ) (hk : -1022 ≤ k)
    (h1 : (2 : ℚ) ^ k ≤ a) (h2 : a < (2 : ℚ) ^ (k + 1))
    (hn : roundHalfEven (a / 2 ^ (k - 52)) = n) (hr : (n : ℚ) * 2 ^ (k - 52) = r)
    (hb : |r| ≤ MaxFloat64) : roundF64 a = F64.fin r hb := by
  have ha : 0 < a := lt_of_lt_of_le (by positivity) h1
  have hv : roundValue a = r := by
    unfold roundValue roundMagnitude
    rw [if_neg (by linarith), ulpExp_eq a k hk h1 h2, hn, hr]
  unfold roundF64 F64.ofRat
  simp only [hv]
  rw [dif_pos hb]

/-! ## Float64 arithmetic of the grid sizing step -/

/-- Evaluation of the rounding of a positive normal value that is a multiple of
its unit in the last place: it is kept. -/
theorem roundF64_exact (a : ℚ) (k n : ℤ) (hk : -1022 ≤ k) (h1 : (2 : ℚ) ^ k ≤ a)
    (h2 : a < (2 : ℚ) ^ (k + 1)) (hn : a / 2 ^ (k - 52) = (n : ℚ))
    (hb : |a| ≤ MaxFloat64) : roundF64 a = F64.fin a hb := by
  have hu : (2 : ℚ) ^ (k - 52) ≠ 0 := by positivity
  exact roundF64_eval a k n a hk h1 h2 (by rw [hn, roundHalfEven_intCast])
    ((div_eq_iff hu).mp hn).symm hb

theorem fin_congr {a b : ℚ} (h : a = b) (ha : |a| ≤ MaxFloat64) (hb : |b| ≤ MaxFloat64) :
    F64.fin a ha = F64.fin b hb := by
  subst h
  rfl

theorem ofRat_of_le (q : ℚ) (h : |q| ≤ MaxFloat64) : F64.ofRat q = F64.fin q h := by
  unfold F64.ofRat
  rw [dif_pos h]

theorem sub_fin (a b : ℚ) (ha : |a| ≤ MaxFloat64) (hb : |b| ≤ MaxFloat64) :
    F64.sub (F64.fin a ha) (F64.fin b hb) = roundF64 (a - b) := rfl

theorem add_fin (a b : ℚ) (ha : |a| ≤ MaxFloat64) (hb : |b| ≤ MaxFloat64) :
    F64.add (F64.fin a ha) (F64.fin b hb) = roundF64 (a + b) := rfl

theorem div_fin (a b : ℚ) (ha : |a| ≤ MaxFloat64) (hb : |b| ≤ MaxFloat64) (h : b ≠ 0) :
    F64.div (F64.fin a ha) (F64.fin b hb) = roundF64 (a / b) := by
  simp only [F64.div, if_neg h]

theorem fabs_zero : F64.fabs F64.zero = F64.zero :=
  fin_congr abs_zero _ _

theorem div_zero_of_pos (res : F64) (hres : F64.lt F64.zero res) :
    F64.div F64.zero res = F64.zero := by
  cases res with
  | nan => simp [F64.lt, F64.zero] at hres
  | posInf => rfl
  | negInf => simp [F64.lt, F64.zero] at hres
  | fin b hb =>
    have hpos : 0 < b := by simpa [F64.lt, F64.zero] using hres
    unfold F64.zero
    rw [div_fin 0 b _ hb hpos.ne', zero_div, roundF64_zero]
    rfl

theorem add_zero_half : F64.add F64.zero F64.half = F64.half := by
  unfold F64.zero F64.half
  rw [add_fin, zero_add]
  exact roundF64_eval (1 / 2) (-1) (2 ^ 52) (1 / 2) (by norm_num) (by norm_num) (by norm_num)
    (by
      have h : (1 / 2 : ℚ) / 2 ^ ((-1 : ℤ) - 52) = ((2 ^ 52 : ℤ) : ℚ) := by norm_num
      rw [h, roundHalfEven_intCast]) (by norm_num) _

theorem goIntF_half : goIntF F64.half = 0 := by
  have h : goInt (1 / 2) = 0 := by norm_num [goInt]
  simp only [goIntF, F64.half, h]
  norm_num

/-- The size float of a degenerate axis (`hi == lo`, a finite value) is 0 for
every resolution `> 0`. -/
theorem sizeFloat_degenerate (a : ℚ) (h : |a| ≤ MaxFloat64) (res : F64)
    (hres : F64.lt F64.zero res) :
    sizeFloat (F64.fin a h) (F64.fin a h) res = F64.zero := by
  unfold sizeFloat
  rw [sub_fin, sub_self, roundF64_zero, div_zero_of_pos res hres, fabs_zero]

theorem roundHalfEven_ge (r : ℚ) (n : ℤ) (h : (n : ℚ) ≤ r) : n ≤ roundHalfEven r := by
  have hf : n ≤ ⌊r⌋ := Int.le_floor.mpr h
  unfold roundHalfEven
  split_ifs <;> omega

theorem roundHalfEven_le (r : ℚ) (n : ℤ) (h : r ≤ (n : ℚ)) : roundHalfEven r ≤ n := by
  rcases h.lt_or_eq with h1 | h1
  · have hf : ⌊r⌋ < n := Int.floor_lt.mpr h1
    unfold roundHalfEven
    split_ifs <;> omega
  · rw [h1, roundHalfEven_intCast]

/-- Rounding a value in `[1, 2^54)` gives a finite value in `[1, 2^55]`. -/
theorem roundF64_mid (q : ℚ) (h1 : 1 ≤ q) (h2 : q < 2 ^ 54) :
    ∃ (r : ℚ) (hb : |r| ≤ MaxFloat64), roundF64 q = F64.fin r hb ∧ 1 ≤ r ∧ r ≤ 2 ^ 55 := by
  have hq : 0 < q := by linarith
  obtain ⟨k, hk1, hk2⟩ : ∃ k : ℤ, (2 : ℚ) ^ k ≤ q ∧ q < (2 : ℚ) ^ (k + 1) :=
    ⟨Int.log 2 q, by exact_mod_cast Int.zpow_log_le_self (by norm_num) hq,
      by exact_mod_cast Int.lt_zpow_succ_log_self (by norm_num) q⟩
  have hk0 : 0 ≤ k := by
    by_contra hneg
    have : k + 1 ≤ 0 := by omega
    have h3 : (2 : ℚ) ^ (k + 1) ≤ 2 ^ (0 : ℤ) := zpow_le_zpow_right₀ (by norm_num) this
    norm_num at h3
    linarith
  have hk54 : k < 54 := by
    by_contra hge
    have : (54 : ℤ) ≤ k := by omega
    have h3 : (2 : ℚ) ^ (54 : ℤ) ≤ 2 ^ k := zpow_le_zpow_right₀ (by norm_num) this
    have h4 : (2 : ℚ) ^ (54 : ℤ) = 2 ^ 54 := by norm_num
    linarith
  have hu : (0 : ℚ) < 2 ^ (k - 52) := by positivity
  have e1 : (2 : ℚ) ^ k = 2 ^ 52 * 2 ^ (k - 52) := by
    rw [show (2 : ℚ) ^ 52 = 2 ^ (52 : ℤ) by norm_num, ← zpow_add₀ (by norm_num)]
    congr 1; ring
  have e2 : (2 : ℚ) ^ (k + 1) = 2 ^ 53 * 2 ^ (k - 52) := by
    rw [show (2 : ℚ) ^ 53 = 2 ^ (53 : ℤ) by norm_num, ← zpow_add₀ (by norm_num)]
    congr 1; ring
  have n1 : (2 ^ 52 : ℤ) ≤ roundHalfEven (q / 2 ^ (k - 52)) := by
    apply roundHalfEven_ge
    rw [le_div_iff₀ hu, show ((2 ^ 52 : ℤ) : ℚ) = 2 ^ 52 by norm_cast, ← e1]
    exact hk1
  have n2 : roundHalfEven (q / 2 ^ (k - 52)) ≤ (2 ^ 53 : ℤ) := by
    apply roundHalfEven_le
    rw [div_le_iff₀ hu, show ((2 ^ 53 : ℤ) : ℚ) = 2 ^ 53 by norm_cast, ← e2]
    exact hk2.le
  have n1q : (2 ^ 52 : ℚ) ≤ (roundHalfEven (q / 2 ^ (k - 52)) : ℚ) := by exact_mod_cast n1
  have n2q : (roundHalfEven (q / 2 ^ (k - 52)) : ℚ) ≤ (2 ^ 53 : ℚ) := by exact_mod_cast n2
  have r1 : (2 : ℚ) ^ k ≤ (roundHalfEven (q / 2 ^ (k - 52)) : ℚ) * 2 ^ (k - 52) := by
    rw [e1]; exact mul_le_mul_of_nonneg_right n1q hu.le
  have r2 : (roundHalfEven (q / 2 ^ (k - 52)) : ℚ) * 2 ^ (k - 52) ≤ (2 : ℚ) ^ (k + 1) := by
    rw [e2]; exact mul_le_mul_of_nonneg_right n2q hu.le
  have p1 : (1 : ℚ) ≤ 2 ^ k := by
    have := zpow_le_zpow_right₀ (show (1 : ℚ) ≤ 2 by norm_num) hk0
    simpa using this
  have p2 : (2 : ℚ) ^ (k + 1) ≤ 2 ^ 55 := by
    have h3 : (2 : ℚ) ^ (k + 1) ≤ 2 ^ (55 : ℤ) :=
      zpow_le_zpow_right₀ (by norm_num) (by omega)
    have h4 : (2 : ℚ) ^ (55 : ℤ) = 2 ^ 55 := by norm_num
    linarith
  have hb : |(roundHalfEven (q / 2 ^ (k - 52)) : ℚ) * 2 ^ (k - 52)| ≤ MaxFloat64 := by
    rw [abs_of_nonneg (by linarith)]
    have : (2 : ℚ) ^ 55 ≤ MaxFloat64 := by norm_num [MaxFloat64]
    linarith
  exact ⟨_, hb, roundF64_eval q k _ _ (by omega) hk1 hk2 rfl rfl hb, by linarith, by linarith⟩

/-- With a finite size float in `[0.5, 2^53)` the size `int(sizeFloat + 0.5)`
is at least 1. -/
theorem goIntF_add_half_pos (a : ℚ) (h : |a| ≤ MaxFloat64) (h1 : 1 / 2 ≤ a)
    (h2 : a < 2 ^ 53) : 1 ≤ goIntF (F64.add (F64.fin a h) F64.half) := by
  unfold F64.half
  rw [add_fin]
  obtain ⟨r, hb, hr, r1, r2⟩ := roundF64_mid (a + 1 / 2) (by linarith) (by linarith)
  rw [hr]
  have g : goInt r = ⌊r⌋ := by unfold goInt; rw [if_pos (by linarith)]
  have f1 : (1 : ℤ) ≤ ⌊r⌋ := Int.le_floor.mpr (by exact_mod_cast r1)
  have f2 : ⌊r⌋ < 2 ^ 63 := by
    apply Int.floor_lt.mpr
    push_cast
    have : (2 : ℚ) ^ 55 < 2 ^ 63 := by norm_num
    linarith
  simp only [goIntF, g]
  rw [if_pos ⟨by omega, f2⟩]
  exact f1

theorem fabs_neg (v : F64) : F64.fabs (F64.neg v) = F64.fabs v := by
  cases v with
  | nan => rfl
  | posInf => rfl
  | negInf => rfl
  | fin q h => exact fin_congr (abs_neg q) _ _

theorem fabs_div_neg (a r : F64) :
    F64.fabs (F64.div a (F64.neg r)) = F64.fabs (F64.div a r) := by
  cases a with
  | nan => cases r <;> rfl
  | posInf =>
    cases r with
    | nan => rfl
    | posInf => rfl
    | negInf => rfl
    | fin b hb =>
      simp only [F64.neg, F64.div]
      split_ifs <;> rfl
  | negInf =>
    cases r with
    | nan => rfl
    | posInf => rfl
    | negInf => rfl
    | fin b hb =>
      simp only [F64.neg, F64.div]
      split_ifs <;> rfl
  | fin a ha =>
    cases r with
    | nan => rfl
    | posInf => rfl
    | negInf => rfl
    | fin b hb =>
      by_cases h0 : b = 0
      · subst h0
        exact congrArg F64.fabs (congrArg (F64.div (F64.fin a ha)) (fin_congr neg_zero _ _))
      · have h1 : -b ≠ 0 := neg_ne_zero.mpr h0
        have e1 : F64.div (F64.fin a ha) (F64.neg (F64.fin b hb)) = roundF64 (a / -b) :=
          div_fin a (-b) ha _ h1
        rw [e1, div_fin a b ha hb h0, div_neg, roundF64_neg, fabs_neg]

/-- The grid sizing step does not see the sign of the resolution. -/
theorem sizeFloat_neg_res (lo hi res : F64) :
    sizeFloat lo hi (F64.neg res) = sizeFloat lo hi res :=
  fabs_div_neg (F64.sub hi lo) res

/-- With the resolution 0 the size float is NaN or `+Inf`. -/
theorem sizeFloat_zero_res (lo hi : F64) :
    sizeFloat lo hi F64.zero = F64.nan ∨ sizeFloat lo hi F64.zero = F64.posInf := by
  unfold sizeFloat
  generalize F64.sub hi lo = d
  cases d with
  | nan => left; rfl
  | posInf => right; simp [F64.div, F64.zero, F64.fabs]
  | negInf => right; simp [F64.div, F64.zero, F64.fabs]
  | fin a ha =>
    by_cases h0 : a = 0
    · left; simp [F64.div, F64.zero, F64.fabs, h0]
    · right
      by_cases h1 : 0 < a
      · simp [F64.div, F64.zero, F64.fabs, h0, h1]
      · simp [F64.div, F64.zero, F64.fabs, h0, h1]

theorem goIntF_add_half_zero_res (lo hi : F64) :
    goIntF (F64.add (sizeFloat lo hi F64.zero) F64.half) = intIndefinite := by
  rcases sizeFloat_zero_res lo hi with h | h <;> rw [h] <;> rfl

/-! ## Claims about the grid sizing step -/

/-- C3, as the code behaves: for the single-point extent `(3, 3, 5, 5)` and
resolution 1 the grid sizing step returns `xSize = 0` and `ySize = 0`. -/
theorem gridSizesF_single_point :
    gridSizesF { xMin := F64.ofRat 3, xMax := F64.ofRat 3
                 yMin := F64.ofRat 5, yMax := F64.ofRat 5 } F64.one = (0, 0) := by
  have h3 : |(3 : ℚ)| ≤ MaxFloat64 := by norm_num [MaxFloat64, abs_of_nonneg]
  have h5 : |(5 : ℚ)| ≤ MaxFloat64 := by norm_num [MaxFloat64, abs_of_nonneg]
  have hres : F64.lt F64.zero F64.one := by norm_num [F64.lt, F64.zero, F64.one]
  unfold gridSizesF
  simp only [ofRat_of_le 3 h3, ofRat_of_le 5 h5, sizeFloat_degenerate _ _ _ hres,
    add_zero_half, goIntF_half]

/-- C3 amended: for every resolution `> 0` the grid sizing step applies no
clamp: when `xMax == xMin` (a finite value) it returns `xSize = 0` and when
`yMax == yMin` (a finite value) it returns `ySize = 0`; `xSize ≥ 1` holds when
the computed `xSizeFloat` is a finite value in `[0.5, 2^53)`, and `ySize ≥ 1`
when the computed `ySizeFloat` is. -/
theorem gridSizesF_no_clamp (e : ExtentF) (res : F64) (hres : F64.lt F64.zero res) :
    (∀ (a : ℚ) (h : |a| ≤ MaxFloat64), e.xMin = F64.fin a h → e.xMax = F64.fin a h →
      (gridSizesF e res).1 = 0) ∧
    (∀ (a : ℚ) (h : |a| ≤ MaxFloat64), e.yMin = F64.fin a h → e.yMax = F64.fin a h →
      (gridSizesF e res).2 = 0) ∧
    (∀ (a : ℚ) (h : |a| ≤ MaxFloat64), sizeFloat e.xMin e.xMax res = F64.fin a h →
      1 / 2 ≤ a → a < 2 ^ 53 → 1 ≤ (gridSizesF e res).1) ∧
    (∀ (a : ℚ) (h : |a| ≤ MaxFloat64), sizeFloat e.yMin e.yMax res = F64.fin a h →
      1 / 2 ≤ a → a < 2 ^ 53 → 1 ≤ (gridSizesF e res).2) := by
  refine ⟨?_, ?_, ?_, ?_⟩
  · intro a h h1 h2
    show goIntF (F64.add (sizeFloat e.xMin e.xMax res) F64.half) = 0
    rw [h1, h2, sizeFloat_degenerate a h res hres, add_zero_half, goIntF_half]
  · intro a h h1 h2
    show goIntF (F64.add (sizeFloat e.yMin e.yMax res) F64.half) = 0
    rw [h1, h2, sizeFloat_degenerate a h res hres, add_zero_half, goIntF_half]
  · intro a h hs h1 h2
    show 1 ≤ goIntF (F64.add (sizeFloat e.xMin e.xMax res) F64.half)
    rw [hs]
    exact goIntF_add_half_pos a h h1 h2
  · intro a h hs h1 h2
    show 1 ≤ goIntF (F64.add (sizeFloat e.yMin e.yMax res) F64.half)
    rw [hs]
    exact goIntF_add_half_pos a h h1 h2

/-- The size float of the axis `[0, 1]` with the resolution of `main`: the
quotient `1 / resolution` rounded to float64. -/
theorem sizeFloat_unit_axis :
    ∃ (a : ℚ) (h : |a| ≤ MaxFloat64),
      sizeFloat F64.zero F64.one resolution = F64.fin a h ∧ 1 / 2 ≤ a ∧ a < 2 ^ 53 := by
  have h1 : |(1 : ℚ)| ≤ MaxFloat64 := by norm_num [MaxFloat64]
  have hq : |(5183201404833231 / 2 ^ 37 : ℚ)| ≤ MaxFloat64 := by
    norm_num [MaxFloat64, abs_of_nonneg]
  have e1 : F64.sub F64.one F64.zero = F64.fin 1 h1 := by
    unfold F64.one F64.zero
    rw [sub_fin, sub_zero]
    exact roundF64_exact _ 0 (2 ^ 52) (by norm_num) (by norm_num) (by norm_num)
      (by norm_num) h1
  have e2 : F64.div (F64.fin 1 h1) resolution = F64.fin (5183201404833231 / 2 ^ 37) hq := by
    unfold resolution
    rw [div_fin _ _ _ _ (by norm_num)]
    exact roundF64_eval _ 15 5183201404833231 _ (by norm_num) (by norm_num) (by norm_num)
      (by norm_num [roundHalfEven]) (by norm_num) hq
  have e3 : F64.fabs (F64.fin (5183201404833231 / 2 ^ 37) hq) =
      F64.fin (5183201404833231 / 2 ^ 37) hq :=
    fin_congr (abs_of_nonneg (by norm_num)) _ _
  refine ⟨_, hq, ?_, by norm_num, by norm_num⟩
  unfold sizeFloat
  rw [e1, e2, e3]

/-- Witness of C3 amended on the collinear extent `(0, 1, 0, 0)` with the
resolution of `main`: the y axis is degenerate and the x size float is
`5183201404833231 / 2^37`. -/
theorem gridSizesF_no_clamp_witness :
    F64.lt F64.zero resolution ∧
    (∃ (a : ℚ) (h : |a| ≤ MaxFloat64),
      sizeFloat F64.zero F64.one resolution = F64.fin a h ∧ 1 / 2 ≤ a ∧ a < 2 ^ 53) ∧
    (∀ (a : ℚ) (h : |a| ≤ MaxFloat64), F64.zero = F64.fin a h → F64.one = F64.fin a h →
      (gridSizesF { xMin := F64.zero, xMax := F64.one
                    yMin := F64.zero, yMax := F64.zero } resolution).1 = 0) ∧
    (∀ (a : ℚ) (h : |a| ≤ MaxFloat64), F64.zero = F64.fin a h → F64.zero = F64.fin a h →
      (gridSizesF { xMin := F64.zero, xMax := F64.one
                    yMin := F64.zero, yMax := F64.zero } resolution).2 = 0) ∧
    (∀ (a : ℚ) (h : |a| ≤ MaxFloat64),
      sizeFloat F64.zero F64.one resolution = F64.fin a h →
      1 / 2 ≤ a → a < 2 ^ 53 →
      1 ≤ (gridSizesF { xMin := F64.zero, xMax := F64.one
                        yMin := F64.zero, yMax := F64.zero } resolution).1) ∧
    (∀ (a : ℚ) (h : |a| ≤ MaxFloat64),
      sizeFloat F64.zero F64.zero resolution = F64.fin a h →
      1 / 2 ≤ a → a < 2 ^ 53 →
      1 ≤ (gridSizesF { xMin := F64.zero, xMax := F64.one
                        yMin := F64.zero, yMax := F64.zero } resolution).2) :=
  ⟨by norm_num [F64.lt, F64.zero, resolution], sizeFloat_unit_axis,
    gridSizesF_no_clamp
      { xMin := F64.zero, xMax := F64.one, yMin := F64.zero, yMax := F64.zero } resolution
      (by norm_num [F64.lt, F64.zero, resolution])⟩

/-- The x size of the extent `(0, 2^37)` with the resolution of `main`: the
quotient rounds to `5183201404833231`, the sum with 0.5 is a tie between two
float64 values and rounds to the even one. -/
theorem xSize_tie :
    goIntF (F64.add (sizeFloat F64.zero (F64.ofRat 137438953472) resolution) F64.half) =
      5183201404833232 := by
  have hx : |(137438953472 : ℚ)| ≤ MaxFloat64 := by norm_num [MaxFloat64, abs_of_nonneg]
  have hq : |(5183201404833231 : ℚ)| ≤ MaxFloat64 := by
    norm_num [MaxFloat64, abs_of_nonneg]
  have hs : |(5183201404833232 : ℚ)| ≤ MaxFloat64 := by
    norm_num [MaxFloat64, abs_of_nonneg]
  have e1 : F64.sub (F64.ofRat 137438953472) F64.zero = F64.fin 137438953472 hx := by
    rw [ofRat_of_le _ hx]
    unfold F64.zero
    rw [sub_fin, sub_zero]
    exact roundF64_exact _ 37 (2 ^ 52) (by norm_num) (by norm_num) (by norm_num)
      (by norm_num) hx
  have e2 : F64.div (F64.fin 137438953472 hx) resolution = F64.fin 5183201404833231 hq := by
    unfold resolution
    rw [div_fin _ _ _ _ (by norm_num)]
    exact roundF64_eval _ 52 5183201404833231 _ (by norm_num) (by norm_num) (by norm_num)
      (by norm_num [roundHalfEven]) (by norm_num) hq
  have e3 : F64.fabs (F64.fin 5183201404833231 hq) = F64.fin 5183201404833231 hq :=
    fin_congr (abs_of_nonneg (by norm_num)) _ _
  have e4 : F64.add (F64.fin 5183201404833231 hq) F64.half = F64.fin 5183201404833232 hs := by
    unfold F64.half
    rw [add_fin]
    exact roundF64_eval _ 52 5183201404833232 _ (by norm_num) (by norm_num) (by norm_num)
      (by norm_num [roundHalfEven]) (by norm_num) hs
  have e5 : goInt 5183201404833232 = 5183201404833232 := by norm_num [goInt]
  unfold sizeFloat
  rw [e1, e2, e3, e4]
  simp only [goIntF, e5]
  norm_num

/-- C5, the code at the failing input: for the samples `(0, 0)` and
`(137438953472, 0)` the scan gives the extent `(0, 137438953472, 0, 0)`, and
with the resolution of `main` the grid sizing step returns
`xSize = 5183201404833232`, while `floor(|xMax - xMin| / resolution + 0.5)` is
`5183201404833231`. -/
theorem gridSizesF_tie_rounds_to_even :
    extentScanF [F64.zero, F64.ofRat 137438953472] [F64.zero, F64.zero] = some
      { xMin := F64.zero, xMax := F64.ofRat 137438953472
        yMin := F64.zero, yMax := F64.zero } ∧
    gridSizesF { xMin := F64.zero, xMax := F64.ofRat 137438953472
                 yMin := F64.zero, yMax := F64.zero } resolution =
      (5183201404833232, 0) ∧
    ⌊|(137438953472 : ℚ) - 0| / (7826209332610047 / 2 ^ 68) + 1 / 2⌋ =
      5183201404833231 := by
  have hx : |(137438953472 : ℚ)| ≤ MaxFloat64 := by norm_num [MaxFloat64, abs_of_nonneg]
  have hres : F64.lt F64.zero resolution := by norm_num [F64.lt, F64.zero, resolution]
  refine ⟨?_, ?_, ?_⟩
  · rw [ofRat_of_le _ hx]
    norm_num [extentScanF, extentLoopF, extentStepF, extentInitF, F64.lt, F64.gt,
      F64.maxFloat, F64.neg, F64.zero, MaxFloat64]
  · have hy : goIntF (F64.add (sizeFloat F64.zero F64.zero resolution) F64.half) = 0 := by
      have h0 : sizeFloat F64.zero F64.zero resolution = F64.zero :=
        sizeFloat_degenerate 0 _ resolution hres
      rw [h0, add_zero_half, goIntF_half]
    show (goIntF (F64.add (sizeFloat F64.zero (F64.ofRat 137438953472) resolution) F64.half),
      goIntF (F64.add (sizeFloat F64.zero F64.zero resolution) F64.half)) = _
    rw [xSize_tie, hy]
  · norm_num

/-- The size of the axis `[0, 10]` with resolution 1. -/
theorem size_ten :
    goIntF (F64.add (sizeFloat F64.zero (F64.ofRat 10) F64.one) F64.half) = 10 := by
  have h10 : |(10 : ℚ)| ≤ MaxFloat64 := by norm_num [MaxFloat64, abs_of_nonneg]
  have h21 : |(21 / 2 : ℚ)| ≤ MaxFloat64 := by norm_num [MaxFloat64, abs_of_nonneg]
  have r10 : roundF64 10 = F64.fin 10 h10 :=
    roundF64_exact _ 3 (10 * 2 ^ 49) (by norm_num) (by norm_num) (by norm_num)
      (by norm_num) h10
  have e1 : F64.sub (F64.ofRat 10) F64.zero = F64.fin 10 h10 := by
    rw [ofRat_of_le _ h10]
    unfold F64.zero
    rw [sub_fin, sub_zero, r10]
  have e2 : F64.div (F64.fin 10 h10) F64.one = F64.fin 10 h10 := by
    unfold F64.one
    rw [div_fin _ _ _ _ (by norm_num), div_one, r10]
  have e3 : F64.fabs (F64.fin 10 h10) = F64.fin 10 h10 :=
    fin_congr (abs_of_nonneg (by norm_num)) _ _
  have e4 : F64.add (F64.fin 10 h10) F64.half = F64.fin (21 / 2) h21 := by
    unfold F64.half
    rw [add_fin, show (10 : ℚ) + 1 / 2 = 21 / 2 by norm_num]
    exact roundF64_exact _ 3 (21 * 2 ^ 48) (by norm_num) (by norm_num) (by norm_num)
      (by norm_num) h21
  have e5 : goInt (21 / 2) = 10 := by norm_num [goInt]
  unfold sizeFloat
  rw [e1, e2, e3, e4]
  simp only [goIntF, e5]
  norm_num

/-- C8, as the code behaves: evaluated at the resolution `-1` the grid sizing
step divides by it and returns the dimensions `10 × 10` for the extent
`(0, 10, 0, 10)`, and evaluated at the resolution 0 it still divides (the
quotient is `+Inf`) and returns the two converted values; no error is raised. -/
theorem gridSizesF_nonpositive_resolution_returns :
    gridSizesF { xMin := F64.zero, xMax := F64.ofRat 10
                 yMin := F64.zero, yMax := F64.ofRat 10 } (F64.neg F64.one) = (10, 10) ∧
    sizeFloat F64.zero (F64.ofRat 10) F64.zero = F64.posInf ∧
    gridSizesF { xMin := F64.zero, xMax := F64.ofRat 10
                 yMin := F64.zero, yMax := F64.ofRat 10 } F64.zero =
      (intIndefinite, intIndefinite) := by
  refine ⟨?_, ?_, ?_⟩
  · show (goIntF (F64.add (sizeFloat F64.zero (F64.ofRat 10) (F64.neg F64.one)) F64.half),
      goIntF (F64.add (sizeFloat F64.zero (F64.ofRat 10) (F64.neg F64.one)) F64.half)) = _
    rw [sizeFloat_neg_res, size_ten]
  · have h10 : |(10 : ℚ)| ≤ MaxFloat64 := by norm_num [MaxFloat64, abs_of_nonneg]
    have e1 : F64.sub (F64.ofRat 10) F64.zero = F64.fin 10 h10 := by
      rw [ofRat_of_le _ h10]
      unfold F64.zero
      rw [sub_fin, sub_zero]
      exact roundF64_exact _ 3 (10 * 2 ^ 49) (by norm_num) (by norm_num) (by norm_num)
        (by norm_num) h10
    unfold sizeFloat
    rw [e1]
    norm_num [F64.div, F64.zero, F64.fabs]
  · show (goIntF (F64.add (sizeFloat F64.zero (F64.ofRat 10) F64.zero) F64.half),
      goIntF (F64.add (sizeFloat F64.zero (F64.ofRat 10) F64.zero) F64.half)) = _
    rw [goIntF_add_half_zero_res]

/-- C8 amended: the grid sizing step has no resolution check and cannot fail.
The resolution of `main` is a positive constant; the step divides by the
resolution whatever its value and always returns two sizes: the sizes for
`-resolution` are those for `resolution` (`math.Abs` removes the sign), and for
the resolution 0 each size float is NaN or `+Inf` and each size is the value of
its `int` conversion. -/
theorem gridSizesF_no_resolution_check (e : ExtentF) (res : F64) :
    gridSizesF e (F64.neg res) = gridSizesF e res ∧
    (sizeFloat e.xMin e.xMax F64.zero = F64.nan ∨
      sizeFloat e.xMin e.xMax F64.zero = F64.posInf) ∧
    (sizeFloat e.yMin e.yMax F64.zero = F64.nan ∨
      sizeFloat e.yMin e.yMax F64.zero = F64.posInf) ∧
    gridSizesF e F64.zero = (intIndefinite, intIndefinite) ∧
    F64.lt F64.zero resolution := by
  refine ⟨?_, sizeFloat_zero_res _ _, sizeFloat_zero_res _ _, ?_, ?_⟩
  · show (goIntF (F64.add (sizeFloat e.xMin e.xMax (F64.neg res)) F64.half),
      goIntF (F64.add (sizeFloat e.yMin e.yMax (F64.neg res)) F64.half)) = _
    rw [sizeFloat_neg_res, sizeFloat_neg_res]
    rfl
  · show (goIntF (F64.add (sizeFloat e.xMin e.xMax F64.zero) F64.half),
      goIntF (F64.add (sizeFloat e.yMin e.yMax F64.zero) F64.half)) = _
    rw [goIntF_add_half_zero_res, goIntF_add_half_zero_res]
  · norm_num [F64.lt, F64.zero, resolution]

/-! ## Claims settled in the exact reading -/

/-- C4, as the code behaves: `extentScan [] [] = some sentinel`; the scan of the
empty sample set does not fail. -/
theorem extentScan_empty_returns :
    extentScan [] [] = some
      { xMin := MaxFloat64, xMax := -MaxFloat64, yMin := MaxFloat64, yMax := -MaxFloat64 } :=
  rfl

/-- C4 amended: when `x` is empty the loop body never runs and the scan returns
the initial sentinel extent `(MaxFloat64, -MaxFloat64, MaxFloat64, -MaxFloat64)`,
an inverted rectangle (`xMax < xMin`, `yMax < yMin`), instead of an error. -/
theorem extentScan_nil_sentinel (y : List ℚ) :
    ∃ e, extentScan [] y = some e ∧
      e = { xMin := MaxFloat64, xMax := -MaxFloat64, yMin := MaxFloat64, yMax := -MaxFloat64 } ∧
      e.xMax < e.xMin ∧ e.yMax < e.yMin := by
  refine ⟨_, rfl, rfl, ?_, ?_⟩ <;> norm_num [extentInit, MaxFloat64]

theorem goInt_of_nonneg (v : ℚ) (h : 0 ≤ v) : goInt v = ⌊v⌋ := by
  unfold goInt
  rw [if_pos h]

theorem gridSizes_of_ne_zero (e : Extent) (res : ℚ) (h : res ≠ 0) :
    gridSizes e res = some
      (⌊|(e.xMax - e.xMin) / res| + 1 / 2⌋, ⌊|(e.yMax - e.yMin) / res| + 1 / 2⌋) := by
  unfold gridSizes floatDiv
  simp only [if_neg h]
  rw [goInt_of_nonneg _ (by positivity), goInt_of_nonneg _ (by positivity)]

theorem gridSizes_of_pos (e : Extent) (res : ℚ) (hres : 0 < res) :
    gridSizes e res = some
      (⌊|e.xMax - e.xMin| / res + 1 / 2⌋, ⌊|e.yMax - e.yMin| / res + 1 / 2⌋) := by
  rw [gridSizes_of_ne_zero e res hres.ne', abs_div, abs_div, abs_of_pos hres]

/-! ## Pixel size and geotransform -/

theorem pixelSize_of_pos (e : Extent) (xSize : ℤ) (h : 1 ≤ xSize) :
    pixelSize e xSize = some (|e.xMax - e.xMin| / (xSize : ℚ)) := by
  have hpos : (0 : ℚ) < (xSize : ℚ) := by exact_mod_cast h
  unfold pixelSize floatDiv
  rw [if_neg hpos.ne']
  simp only [Option.map_some']
  rw [abs_div, abs_of_pos hpos]

/-- C6: for every extent and every `xSize ≥ 1` the pixel size is
`|xMax - xMin| / xSize` and the geotransform built from it is exactly
`(xMin, pixelSize, 0, yMax, 0, -pixelSize)`: origin `(xMin, yMax)`, both
rotation terms 0, and the Y pixel size the negation of the X pixel size. -/
theorem geoTransform_north_up (e : Extent) (xSize : ℤ) (h : 1 ≤ xSize) :
    ∃ p : ℚ, pixelSize e xSize = some p ∧ p = |e.xMax - e.xMin| / (xSize : ℚ) ∧
      geoTransform e p = (e.xMin, p, 0, e.yMax, 0, -p) ∧
      (pixelSize e xSize).map (geoTransform e) = some
        (e.xMin, |e.xMax - e.xMin| / (xSize : ℚ), 0, e.yMax, 0,
          -(|e.xMax - e.xMin| / (xSize : ℚ))) := by
  refine ⟨_, pixelSize_of_pos e xSize h, rfl, rfl, ?_⟩
  rw [pixelSize_of_pos e xSize h]
  rfl

/-- Witness of C6 on the extent `(0, 10, 0, 10)` with `xSize = 10`. -/
theorem geoTransform_north_up_witness :
    (1 : ℤ) ≤ 10 ∧
    ∃ p : ℚ, pixelSize { xMin := 0, xMax := 10, yMin := 0, yMax := 10 } 10 = some p ∧
      p = |(10 : ℚ) - 0| / ((10 : ℤ) : ℚ) ∧
      geoTransform { xMin := 0, xMax := 10, yMin := 0, yMax := 10 } p =
        (0, p, 0, 10, 0, -p) ∧
      (pixelSize { xMin := 0, xMax := 10, yMin := 0, yMax := 10 } 10).map
          (geoTransform { xMin := 0, xMax := 10, yMin := 0, yMax := 10 }) = some
        (0, |(10 : ℚ) - 0| / ((10 : ℤ) : ℚ), 0, 10, 0, -(|(10 : ℚ) - 0| / ((10 : ℤ) : ℚ))) :=
  ⟨by decide, geoTransform_north_up { xMin := 0, xMax := 10, yMin := 0, yMax := 10 } 10
    (by decide)⟩

/-- C7: for the samples `(0,0,10)`, `(10,0,20)`, `(0,10,30)` and resolution 1
the pure steps give the extent `(0, 10, 0, 10)`, `xSize = 10`, `ySize = 10`,
`pixelSize = 1` and the geotransform `(0, 1, 0, 10, 0, -1)`. -/
theorem pureSteps_three_samples :
    pureSteps [0, 10, 0] [0, 0, 10] 1 = some
      { extent := { xMin := 0, xMax := 10, yMin := 0, yMax := 10 }
        xSize := 10, ySize := 10, nX := 10, nY := 10
        pixelSize := 1, geoTransform := (0, 1, 0, 10, 0, -1) } := by
  norm_num [pureSteps, extentScan, extentLoop, extentStep, extentInit, MaxFloat64,
    gridSizes, floatDiv, goInt, pixelSize, geoTransform]
  rfl

/-- C10: for every extent with `xMin ≤ xMax` and every resolution `> 0` such
that `floor(|xMax - xMin| / resolution + 0.5) ≥ 1`, the grid sizing step returns
that value as `xSize`, and the pixel size `|xMax - xMin| / xSize` computed from
it satisfies `resolution / 2 ≤ pixelSize < 3/2 * resolution` and
`xMin + xSize * pixelSize = xMax`. -/
theorem pixelSize_near_resolution (e : Extent) (res : ℚ) (hx : e.xMin ≤ e.xMax)
    (hres : 0 < res) (hn : 1 ≤ ⌊|e.xMax - e.xMin| / res + 1 / 2⌋) :
    ∃ (xSize ySize : ℤ) (p : ℚ), gridSizes e res = some (xSize, ySize) ∧
      xSize = ⌊|e.xMax - e.xMin| / res + 1 / 2⌋ ∧
      pixelSize e xSize = some p ∧ p = |e.xMax - e.xMin| / (xSize : ℚ) ∧
      res / 2 ≤ p ∧ p < 3 / 2 * res ∧ e.xMin + (xSize : ℚ) * p = e.xMax := by
  refine ⟨_, _, _, gridSizes_of_pos e res hres, rfl, pixelSize_of_pos e _ hn, rfl, ?_⟩
  have ax : |e.xMax - e.xMin| = e.xMax - e.xMin := abs_of_nonneg (by linarith)
  rw [ax] at hn ⊢
  generalize hl : e.xMax - e.xMin = l at hn ⊢
  generalize hk : ⌊l / res + 1 / 2⌋ = n at hn ⊢
  have hn1 : (1 : ℚ) ≤ (n : ℚ) := by exact_mod_cast hn
  have hnpos : (0 : ℚ) < (n : ℚ) := by linarith
  have hlo : (n : ℚ) ≤ l / res + 1 / 2 := by rw [← hk]; exact Int.floor_le _
  have hhi : l / res + 1 / 2 < (n : ℚ) + 1 := by rw [← hk]; exact Int.lt_floor_add_one _
  have hlo2 : ((n : ℚ) - 1 / 2) * res ≤ l := by
    have : (n : ℚ) - 1 / 2 ≤ l / res := by linarith
    exact (le_div_iff₀ hres).mp this
  have hhi2 : l < ((n : ℚ) + 1 / 2) * res := by
    have : l / res < (n : ℚ) + 1 / 2 := by linarith
    exact (div_lt_iff₀ hres).mp this
  refine ⟨?_, ?_, ?_⟩
  · rw [le_div_iff₀ hnpos]
    nlinarith
  · rw [div_lt_iff₀ hnpos]
    nlinarith
  · rw [mul_div_cancel₀ _ hnpos.ne']
    linarith

/-- Witness of C10 on the extent `(0, 10, 0, 10)` with resolution 1. -/
theorem pixelSize_near_resolution_witness :
    (0 : ℚ) ≤ 10 ∧ (0 : ℚ) < 1 ∧ 1 ≤ ⌊|(10 : ℚ) - 0| / 1 + 1 / 2⌋ ∧
    ∃ (xSize ySize : ℤ) (p : ℚ),
      gridSizes { xMin := 0, xMax := 10, yMin := 0, yMax := 10 } 1 = some (xSize, ySize) ∧
      xSize = ⌊|(10 : ℚ) - 0| / 1 + 1 / 2⌋ ∧
      pixelSize { xMin := 0, xMax := 10, yMin := 0, yMax := 10 } xSize = some p ∧
      p = |(10 : ℚ) - 0| / (xSize : ℚ) ∧
      (1 : ℚ) / 2 ≤ p ∧ p < 3 / 2 * 1 ∧ 0 + (xSize : ℚ) * p = 10 :=
  ⟨by norm_num, by norm_num, by norm_num,
    pixelSize_near_resolution { xMin := 0, xMax := 10, yMin := 0, yMax := 10 } 1
      (by norm_num) (by norm_num) (by norm_num)⟩

end ContoursGen
